import Mathlib

/-!
Shallow embedding of `apcacli` (src/src/main.rs), a command-line trading
client for the Alpaca brokerage API, together with theorems checking its
natural-language specification.

Conventions of the embedding:
* Rust `Option<T>` becomes `Option T`; `Result<T, E>` becomes `Except E T`.
* The external `num_decimal::Num` type (arbitrary-precision rational) is
  embedded as `ℚ`.  Its `Display` implementation lives in the external
  crate, not in this repository, so every rendering function takes the
  display functions as explicit parameters (`fmt` for plain display,
  `fmt0` for display with zero fractional digits, i.e. Rust `{:.0}`).
* A future that either fails with a `String` error or yields a value is
  embedded as `Except String α`; `debug_assert!` (fatal when active) is
  embedded by returning `none` from the enclosing rendering function.
-/

namespace Apcacli

/-- The numeric type used for prices, quantities and balances.  Embeds the
external `num_decimal::Num` (a rational number). -/
abbrev Num := ℚ

/-! ### Order type inference (src/src/main.rs lines 189-194) -/

/-- `order::Type` of the apca API, the four order execution types. -/
inductive OrderType where
  | Market
  | Limit
  | Stop
  | StopLimit
deriving DecidableEq, Repr

/-- The order-type inference of the `order` handler:
`match (limit_price.is_some(), stop_price.is_some())` mapping
`(true, true) ↦ StopLimit`, `(true, false) ↦ Limit`,
`(false, true) ↦ Stop`, `(false, false) ↦ Market`. -/
def infer_order_type (limit_price stop_price : Option Num) : OrderType :=
  match limit_price.isSome, stop_price.isSome with
  | true, true => OrderType.StopLimit
  | true, false => OrderType.Limit
  | false, true => OrderType.Stop
  | false, false => OrderType.Market

/-! ### Side parsing (src/src/main.rs lines 91-104) -/

/-- The command-line `Side` enum: buy or sell. -/
inductive Side where
  | Buy
  | Sell
deriving DecidableEq, Repr

/-- `impl FromStr for Side`: `"buy" ↦ Buy`, `"sell" ↦ Sell`, anything else
is an error naming the invalid token. -/
def Side.from_str (side : String) : Except String Side :=
  match side with
  | "buy" => Except.ok Side.Buy
  | "sell" => Except.ok Side.Sell
  | s => Except.error
      (s ++ " is not a valid side specification (use \x27buy\x27 or \x27sell\x27)")

/-! ### Account status formatting (src/src/main.rs lines 120-130) -/

/-- `account::Status` of the apca API. -/
inductive AccountStatus where
  | Onboarding
  | SubmissionFailed
  | Submitted
  | Updating
  | ApprovalPending
  | Active
  | Rejected
deriving DecidableEq, Repr

/-- `format_account_status`: the fixed, exhaustive status → text mapping. -/
def format_account_status (status : AccountStatus) : String :=
  match status with
  | AccountStatus.Onboarding => "onboarding"
  | AccountStatus.SubmissionFailed => "submission failed"
  | AccountStatus.Submitted => "submitted"
  | AccountStatus.Updating => "updating"
  | AccountStatus.ApprovalPending => "approval pending"
  | AccountStatus.Active => "active"
  | AccountStatus.Rejected => "rejected"

/-! ### Order identifiers (src/src/main.rs lines 107-116)

`OrderId` wraps `order::Id`, itself a wrapper around a 128-bit `Uuid`.
The UUID textual codec lives in the external `uuid` crate, so it is
modelled from the spec here (see `to_hyphenated` and `parse_str`). -/

/-- One hexadecimal digit rendered as a lowercase character. -/
def hexChar (d : Fin 16) : Char :=
  if d.val < 10 then Char.ofNat (48 + d.val) else Char.ofNat (87 + d.val)

/-- The hexadecimal value of a character, if it is a lowercase hex digit
(codes 48-57 are the decimal digits, codes 97-102 the letters a-f). -/
def hexVal (c : Char) : Option (Fin 16) :=
  if h : 48 ≤ c.toNat ∧ c.toNat < 58 then some ⟨c.toNat - 48, by omega⟩
  else if h2 : 97 ≤ c.toNat ∧ c.toNat < 103 then some ⟨c.toNat - 87, by omega⟩
  else none

/-- Render hex digits in dash-separated groups of the given sizes. -/
def encodeGroups : List Nat → List (Fin 16) → List Char
  | [], _ => []
  | [n], ds => (ds.take n).map hexChar
  | n :: m :: ns, ds => (ds.take n).map hexChar ++ '-' :: encodeGroups (m :: ns) (ds.drop n)

/-- Parse dash-separated groups of hex digits of the given sizes. -/
def decodeGroups : List Nat → List Char → Option (List (Fin 16))
  | [], _ => none
  | [n], cs =>
    if cs.length = n then cs.mapM hexVal else none
  | n :: m :: ns, cs =>
    match cs.drop n with
    | '-' :: rest =>
      if (cs.take n).length = n then
        match (cs.take n).mapM hexVal, decodeGroups (m :: ns) rest with
        | some d, some rest2 => some (d ++ rest2)
        | _, _ => none
      else none
    | _ => none

/-- The canonical hyphenated UUID group sizes 8-4-4-4-12. -/
def uuid_groups : List Nat := [8, 4, 4, 4, 12]

/-- Modelled from the spec: a 128-bit UUID, i.e. 32 hex digits
(the external `uuid::Uuid`). -/
def Uuid := { l : List (Fin 16) // l.length = 32 }

instance : DecidableEq Uuid := fun a b =>
  decidable_of_iff (a.val = b.val) Subtype.ext_iff.symm

/-- Modelled from the spec: the canonical hyphenated textual form of a
UUID (`to_hyphenated_ref` of the external `uuid` crate). -/
def to_hyphenated (u : Uuid) : String :=
  String.mk (encodeGroups uuid_groups u.val)

/-- Modelled from the spec: `uuid::parser::ParseError`, the UUID-syntax
error surfaced on parse failure. -/
inductive ParseError where
  | invalidUuid
deriving DecidableEq, Repr

/-- Modelled from the spec: `Uuid::parse_str`, parsing the canonical
hyphenated textual form of a UUID. -/
def parse_str (s : String) : Except ParseError Uuid :=
  match decodeGroups uuid_groups s.data with
  | some ds =>
    if h : ds.length = 32 then Except.ok ⟨ds, h⟩ else Except.error ParseError.invalidUuid
  | none => Except.error ParseError.invalidUuid

deriving instance DecidableEq for Except

/-- `OrderId`, a domain-distinct wrapper around a UUID. -/
abbrev OrderId := Uuid

/-- `impl FromStr for OrderId`: delegates to `Uuid::parse_str`. -/
def OrderId.from_str (id : String) : Except ParseError OrderId :=
  parse_str id

/-! ### API response entities (apca `order::Order`, `account::Account`) -/

/-- `order::Side` of the apca API. -/
inductive ApiSide where
  | Buy
  | Sell
deriving DecidableEq, Repr

/-- The fields of apca's `order::Order` used by this program. -/
structure Order where
  id : Uuid
  symbol : String
  side : ApiSide
  type_ : OrderType
  quantity : Num
  limit_price : Option Num
  stop_price : Option Num
deriving DecidableEq

/-- The fields of apca's `account::Account` used by this program. -/
structure Account where
  id : Uuid
  status : AccountStatus
  currency : String
  buying_power : Num
  cash : Num
  withdrawable_cash : Num
  portfolio_value : Num
  day_trader : Bool
  trading_blocked : Bool
  transfers_blocked : Bool
  account_blocked : Bool
deriving DecidableEq

/-- apca's `orders::OrdersReq`: the list-orders request (page size). -/
structure OrdersReq where
  limit : Nat
deriving DecidableEq, Repr

/-! ### The `account` handler (src/src/main.rs lines 134-167) -/

/-- The lines of the report printed by the `account` handler, in source
order.  The single Rust multi-line `println!` literal is embedded as the
list of its lines, joined by `"\n"` in `account_report`. -/
def account_report_lines (fmt : Num → String) (a : Account) : List String :=
  ["account:",
   "  id:                " ++ to_hyphenated a.id,
   "  status:            " ++ format_account_status a.status,
   "  buying power:      " ++ fmt a.buying_power ++ " " ++ a.currency,
   "  cash:              " ++ fmt a.cash ++ " " ++ a.currency,
   "  withdrawable cash: " ++ fmt a.withdrawable_cash ++ " " ++ a.currency,
   "  portfolio value:   " ++ fmt a.portfolio_value ++ " " ++ a.currency,
   "  day trader:        " ++ toString a.day_trader,
   "  trading blocked:   " ++ toString a.trading_blocked,
   "  transfers blocked: " ++ toString a.transfers_blocked,
   "  account blocked:   " ++ toString a.account_blocked]

/-- The full report printed by the `account` handler. -/
def account_report (fmt : Num → String) (a : Account) : String :=
  "\n".intercalate (account_report_lines fmt a)

/-- The labels of the account report, in order, as stated by the spec. -/
def account_report_labels : List String :=
  ["account:",
   "  id:",
   "  status:",
   "  buying power:",
   "  cash:",
   "  withdrawable cash:",
   "  portfolio value:",
   "  day trader:",
   "  trading blocked:",
   "  transfers blocked:",
   "  account blocked:"]

/-! ### The `order list` handler (src/src/main.rs lines 237-313) -/

/-- `max_width`: maximum width of values produced by applying `f` to each
element of a slice (`slice.iter().fold(0, |m, i| max(m, f(&i)))`). -/
def max_width {T : Type} (slice : List T) (f : T → Nat) : Nat :=
  slice.foldl (fun m i => max m (f i)) 0

/-- `format_quantity`: Rust `format!("{:.0}", quantity)`.  The zero-decimal
display of the external `num_decimal` crate is the parameter `fmt0`. -/
def format_quantity (fmt0 : Num → String) (quantity : Num) : String :=
  fmt0 quantity

/-- The per-row side label of the listing: Buy ↦ `"buy"`, Sell ↦ `"sell"`. -/
def side_label : ApiSide → String
  | ApiSide.Buy => "buy"
  | ApiSide.Sell => "sell"

/-- Rust format-string right alignment `{value:>width$}`: pad with spaces
on the left up to `width`. -/
def pad_left (s : String) (width : Nat) : String :=
  String.mk (List.replicate (width - s.length) ' ') ++ s

/-- Rust format-string left alignment `{value:<width$}`: pad with spaces
on the right up to `width`. -/
def pad_right (s : String) (width : Nat) : String :=
  s ++ String.mk (List.replicate (width - s.length) ' ')

/-- The price description of a listed order, from the `match` on
`(order.limit_price, order.stop_price)` in `order_list`. -/
def price_desc (fmt : Num → String) (currency : String)
    (limit_price stop_price : Option Num) : String :=
  match limit_price, stop_price with
  | some limit, some stop =>
    "stop @ " ++ fmt stop ++ " " ++ currency ++ ", limit @ " ++ fmt limit ++ " " ++ currency
  | some limit, none => "limit @ " ++ fmt limit ++ " " ++ currency
  | none, some stop => "stop @ " ++ fmt stop ++ " " ++ currency
  | none, none => ""

/-- The condition checked by the `debug_assert!`s in `order_list`: the
populated price fields must match the declared order type. -/
def type_matches (o : Order) : Bool :=
  match o.limit_price, o.stop_price with
  | some _, some _ => decide (o.type_ = OrderType.StopLimit)
  | some _, none => decide (o.type_ = OrderType.Limit)
  | none, some _ => decide (o.type_ = OrderType.Stop)
  | none, none => decide (o.type_ = OrderType.Market)

/-- One row of the listing:
`{id} {side:>4} {qty:>qty_width$} {sym:<sym_width$} {price}`. -/
def order_row (fmt fmt0 : Num → String) (currency : String)
    (qty_width sym_width : Nat) (o : Order) : String :=
  to_hyphenated o.id ++ " " ++ pad_left (side_label o.side) 4 ++ " " ++
    pad_left (format_quantity fmt0 o.quantity) qty_width ++ " " ++
    pad_right o.symbol sym_width ++ " " ++
    price_desc fmt currency o.limit_price o.stop_price

/-- One row of the listing, guarded by the `debug_assert!` price/type
check; `none` embeds a triggered (fatal) assertion. -/
def order_row_checked (fmt fmt0 : Num → String) (currency : String)
    (qty_width sym_width : Nat) (o : Order) : Option String :=
  if type_matches o then some (order_row fmt fmt0 currency qty_width sym_width o) else none

/-- The loop of `order_list`, row by row; a triggered assertion in any
iteration is fatal (`none`). -/
def render_rows (fmt fmt0 : Num → String) (currency : String)
    (qty_width sym_width : Nat) : List Order → Option (List String)
  | [] => some []
  | o :: rest =>
    match order_row_checked fmt fmt0 currency qty_width sym_width o,
        render_rows fmt fmt0 currency qty_width sym_width rest with
    | some row, some rows => some (row :: rows)
    | _, _ => none

/-- `orders.sort_by(|a, b| a.symbol.cmp(&b.symbol))`: a stable sort by
symbol (Rust `sort_by` is a stable merge sort). -/
def sort_orders (orders : List Order) : List Order :=
  orders.mergeSort (fun a b => decide (a.symbol ≤ b.symbol))

/-- `qty_max` of `order_list`: the width of the quantity column, measured
over the whole (sorted) result set. -/
def qty_max (fmt0 : Num → String) (orders : List Order) : Nat :=
  max_width orders (fun p => (format_quantity fmt0 p.quantity).length)

/-- `sym_max` of `order_list`: the width of the symbol column, measured
over the whole (sorted) result set. -/
def sym_max (orders : List Order) : Nat :=
  max_width orders (fun p => p.symbol.length)

/-- The body of `order_list` once both the account and the orders are
available: sort, measure column widths over the whole result set, then
render every row. -/
def render_order_list (fmt fmt0 : Num → String) (account : Account)
    (orders : List Order) : Option (List String) :=
  let currency := account.currency
  let sorted := sort_orders orders
  render_rows fmt fmt0 currency (qty_max fmt0 sorted) (sym_max sorted) sorted

/-- The `order_list` handler: joins the "get account" and "list orders"
(page size 500) results and proceeds only when both are available; a
failure of either is the failure of the whole operation. -/
def order_list (fmt fmt0 : Num → String) (get_account : Except String Account)
    (get_orders : OrdersReq → Except String (List Order)) :
    Except String (Option (List String)) :=
  match get_account, get_orders { limit := 500 } with
  | Except.error e, _ => Except.error e
  | Except.ok _, Except.error e => Except.error e
  | Except.ok account, Except.ok orders =>
    Except.ok (render_order_list fmt fmt0 account orders)

/-! ### Concrete fixtures used by examples and witnesses -/

/-- A sample UUID: hex digits 0..f twice. -/
def sample_uuid : Uuid :=
  ⟨[0, 1, 2, 3, 4, 5, 6, 7, 8, 9, 10, 11, 12, 13, 14, 15,
    0, 1, 2, 3, 4, 5, 6, 7, 8, 9, 10, 11, 12, 13, 14, 15], by decide⟩

/-- A sample numeric display used in witnesses: the integer part only
(all fixtures carry integral values). -/
def sample_fmt : Num → String := fun q => toString q.num

/-- A sample account snapshot. -/
def sample_account : Account :=
  { id := sample_uuid, status := AccountStatus.Active, currency := "USD",
    buying_power := 0, cash := 0, withdrawable_cash := 0, portfolio_value := 0,
    day_trader := false, trading_blocked := false, transfers_blocked := false,
    account_blocked := false }

/-- A sample market order: symbol TSLA, quantity 7. -/
def order_tsla : Order :=
  { id := sample_uuid, symbol := "TSLA", side := ApiSide.Buy,
    type_ := OrderType.Market, quantity := 7, limit_price := none, stop_price := none }

/-- A sample market order: symbol AAPL, quantity 1500. -/
def order_aapl : Order :=
  { id := sample_uuid, symbol := "AAPL", side := ApiSide.Sell,
    type_ := OrderType.Market, quantity := 1500, limit_price := none, stop_price := none }

/-- A sample market order: symbol MSFT, quantity 23. -/
def order_msft : Order :=
  { id := sample_uuid, symbol := "MSFT", side := ApiSide.Buy,
    type_ := OrderType.Market, quantity := 23, limit_price := none, stop_price := none }

/-- The sample order list with symbols TSLA, AAPL, MSFT in that order. -/
def sample_orders : List Order :=
  [order_tsla, order_aapl, order_msft]

/-- An order violating the price/type invariant: declared Market but
carrying a limit price. -/
def order_bad : Order :=
  { id := sample_uuid, symbol := "AAPL", side := ApiSide.Buy,
    type_ := OrderType.Market, quantity := 1, limit_price := some 100,
    stop_price := none }

end Apcacli

namespace Apcacli

/-- C1: For every combination of optional limit price and optional stop
price, exactly one order type is inferred: both present yields StopLimit,
only limit yields Limit, only stop yields Stop, neither yields Market;
the mapping is total and unambiguous. -/
theorem infer_order_type_total_unambiguous (l s : Option Num) :
    (infer_order_type l s = OrderType.StopLimit ↔ l.isSome ∧ s.isSome) ∧
    (infer_order_type l s = OrderType.Limit ↔ l.isSome ∧ s = none) ∧
    (infer_order_type l s = OrderType.Stop ↔ l = none ∧ s.isSome) ∧
    (infer_order_type l s = OrderType.Market ↔ l = none ∧ s = none) := by
  cases l <;> cases s <;> simp [infer_order_type]

/-- C7: Parsing a side token yields Buy exactly for `"buy"` and Sell
exactly for `"sell"`; every other token fails with a message naming the
invalid token. -/
theorem side_from_str_spec :
    Side.from_str "buy" = Except.ok Side.Buy ∧
    Side.from_str "sell" = Except.ok Side.Sell ∧
    ∀ s : String, s ≠ "buy" → s ≠ "sell" →
      Side.from_str s = Except.error
        (s ++ " is not a valid side specification (use \x27buy\x27 or \x27sell\x27)") := by
  refine ⟨rfl, rfl, fun s h1 h2 => ?_⟩
  unfold Side.from_str
  split
  · simp_all
  · simp_all
  · rfl

/-- Witness for C7: the capitalized token `"Buy"` is rejected with the
message naming it. -/
theorem side_from_str_spec_witness :
    Side.from_str "Buy" = Except.error
      ("Buy" ++ " is not a valid side specification (use \x27buy\x27 or \x27sell\x27)") :=
  side_from_str_spec.2.2 "Buy" (by decide) (by decide)

/-! ### Lemmas about the UUID codec -/

theorem hexVal_hexChar : ∀ d : Fin 16, hexVal (hexChar d) = some d := by decide

theorem hexChar_hexVal {c : Char} {d : Fin 16} (h : hexVal c = some d) :
    hexChar d = c := by
  unfold hexVal at h
  split at h
  next h1 =>
    injection h with h
    subst h
    unfold hexChar
    rw [if_pos (show c.toNat - 48 < 10 by omega)]
    rw [show 48 + (c.toNat - 48) = c.toNat by omega, Char.ofNat_toNat]
  next h1 =>
    split at h
    next h2 =>
      injection h with h
      subst h
      unfold hexChar
      rw [if_neg (show ¬ c.toNat - 87 < 10 by omega)]
      rw [show 87 + (c.toNat - 87) = c.toNat by omega, Char.ofNat_toNat]
    next => exact Option.noConfusion h

theorem mapM_hexVal_map_hexChar (l : List (Fin 16)) :
    (l.map hexChar).mapM hexVal = some l := by
  induction l with
  | nil => rfl
  | cons a l ih => simp only [List.map_cons, List.mapM_cons, hexVal_hexChar, ih]; rfl

theorem mapM_hexVal_eq_some : ∀ {cs : List Char} {ds : List (Fin 16)},
    cs.mapM hexVal = some ds → ds.map hexChar = cs ∧ ds.length = cs.length := by
  intro cs
  induction cs with
  | nil =>
    intro ds h
    simp only [List.mapM_nil, Option.pure_def, Option.some.injEq] at h
    subst h
    simp
  | cons c cs ih =>
    intro ds h
    rw [List.mapM_cons] at h
    cases hc : hexVal c with
    | none => rw [hc] at h; simp at h
    | some d =>
      rw [hc] at h
      cases hcs : cs.mapM hexVal with
      | none => rw [hcs] at h; simp at h
      | some ds2 =>
        rw [hcs] at h
        simp at h
        subst h
        obtain ⟨h1, h2⟩ := ih hcs
        simp [hexChar_hexVal hc, h1, h2]

theorem decode_encode : ∀ (ns : List Nat) (ds : List (Fin 16)), ns ≠ [] →
    ds.length = ns.sum → decodeGroups ns (encodeGroups ns ds) = some ds
  | [], _, h, _ => absurd rfl h
  | [n], ds, _, hlen => by
    have hlen' : ds.length = n := by simpa using hlen
    subst hlen'
    rw [show encodeGroups [ds.length] ds = (ds.take ds.length).map hexChar from rfl]
    rw [List.take_length]
    rw [show decodeGroups [ds.length] (ds.map hexChar)
      = if (ds.map hexChar).length = ds.length then (ds.map hexChar).mapM hexVal
        else none from rfl]
    rw [if_pos (by simp)]
    exact mapM_hexVal_map_hexChar ds
  | n :: m :: ns, ds, _, hlen => by
    have hsum : ds.length = n + (m :: ns).sum := by simpa using hlen
    have hg : ((ds.take n).map hexChar).length = n := by
      simp only [List.length_map, List.length_take]
      omega
    have hdrop : (ds.drop n).length = (m :: ns).sum := by
      simp only [List.length_drop, hsum]
      omega
    have hrec := decode_encode (m :: ns) (ds.drop n) (by simp) hdrop
    simp only [encodeGroups, decodeGroups, List.drop_left' hg, List.take_left' hg, hg,
      mapM_hexVal_map_hexChar, hrec, List.take_append_drop, if_true]

theorem encode_decode : ∀ (ns : List Nat) (cs : List Char) (ds : List (Fin 16)),
    decodeGroups ns cs = some ds → encodeGroups ns ds = cs ∧ ds.length = ns.sum
  | [], _, _, h => by exact Option.noConfusion h
  | [n], cs, ds, h => by
    rw [decodeGroups] at h
    split at h
    next hcn =>
      obtain ⟨h1, h2⟩ := mapM_hexVal_eq_some h
      have hd : ds.length = n := by omega
      refine ⟨?_, by simpa using hd⟩
      rw [show encodeGroups [n] ds = (ds.take n).map hexChar from rfl]
      rw [← hd, List.take_length, h1]
    next => exact Option.noConfusion h
  | n :: m :: ns, cs, ds, h => by
    rw [decodeGroups] at h
    split at h
    next rest hdrop =>
      split at h
      next hc =>
        split at h
        next d rest2 hd hrest2 =>
          obtain ⟨hmap, hdl⟩ := mapM_hexVal_eq_some hd
          obtain ⟨ih1, ih2⟩ := encode_decode (m :: ns) rest rest2 hrest2
          injection h with h
          subst h
          have hdn : d.length = n := by omega
          refine ⟨?_, ?_⟩
          · rw [show encodeGroups (n :: m :: ns) (d ++ rest2)
              = ((d ++ rest2).take n).map hexChar
                ++ '-' :: encodeGroups (m :: ns) ((d ++ rest2).drop n) from rfl]
            rw [List.take_left' hdn, List.drop_left' hdn, hmap, ih1]
            conv_rhs => rw [← List.take_append_drop n cs]
            rw [hdrop]
          · simp [hdn, ih2]
        next => exact Option.noConfusion h
      next => exact Option.noConfusion h
    next => exact Option.noConfusion h

theorem parse_to_hyphenated (u : Uuid) :
    parse_str (to_hyphenated u) = Except.ok u := by
  obtain ⟨l, hl⟩ := u
  show parse_str (String.mk (encodeGroups uuid_groups l)) = _
  unfold parse_str
  rw [show (String.mk (encodeGroups uuid_groups l)).data = encodeGroups uuid_groups l from rfl]
  rw [decode_encode uuid_groups l (by decide) (by rw [hl]; decide)]
  simp [hl]

theorem to_hyphenated_of_parse {s : String} {u : Uuid}
    (h : parse_str s = Except.ok u) : to_hyphenated u = s := by
  unfold parse_str at h
  cases hd : decodeGroups uuid_groups s.data with
  | none => rw [hd] at h; exact Except.noConfusion h
  | some ds =>
    rw [hd] at h
    split at h
    next ds2 hds2 =>
      injection hds2 with hds2
      subst hds2
      split at h
      next hlen =>
        injection h with h
        subst h
        have he := (encode_decode uuid_groups s.data ds hd).1
        show String.mk (encodeGroups uuid_groups ds) = s
        rw [he]
      next => exact Except.noConfusion h
    next => exact Except.noConfusion h

/-- C8: Formatting an Order Identifier to its canonical hyphenated form
and re-parsing yields the original identifier; a successfully parsed
string is the canonical form of its identifier, hence parsing any string
that is not a valid UUID fails with a parse error. -/
theorem order_id_roundtrip :
    (∀ u : Uuid, OrderId.from_str (to_hyphenated u) = Except.ok u) ∧
    (∀ (s : String) (u : Uuid), OrderId.from_str s = Except.ok u → to_hyphenated u = s) ∧
    (∀ s : String, (∀ u : Uuid, to_hyphenated u ≠ s) →
      OrderId.from_str s = Except.error ParseError.invalidUuid) := by
  refine ⟨parse_to_hyphenated, fun s u h => to_hyphenated_of_parse h, fun s hs => ?_⟩
  cases h : OrderId.from_str s with
  | ok u => exact absurd (to_hyphenated_of_parse h) (hs u)
  | error e => cases e; rfl

/-- Witness for C8: parsing back the rendered sample UUID succeeds and
the rendered text is the canonical hyphenated form. -/
theorem order_id_roundtrip_witness :
    to_hyphenated sample_uuid = "01234567-89ab-cdef-0123-456789abcdef" :=
  order_id_roundtrip.2.1 "01234567-89ab-cdef-0123-456789abcdef" sample_uuid (by decide)

/-- C10: In the account report, the id field is rendered as the canonical
hyphenated textual form of the account UUID (re-parsing the rendered id
yields the account id back). -/
theorem account_report_id_canonical (fmt : Num → String) (a : Account) :
    (account_report_lines fmt a).get? 1
      = some ("  id:                " ++ to_hyphenated a.id) ∧
    parse_str (to_hyphenated a.id) = Except.ok a.id :=
  ⟨rfl, parse_to_hyphenated a.id⟩

/-! ### Lemmas about the account report -/

theorem exists_suffix_append {p q : String} (x : String) (h : ∃ r, p = q ++ r) :
    ∃ r, p ++ x = q ++ r := by
  obtain ⟨r, hr⟩ := h
  exact ⟨r ++ x, by rw [hr, String.append_assoc]⟩

/-- C9: The account report is a deterministic multi-line report whose
lines carry exactly the labeled fields id, status, buying power, cash,
withdrawable cash, portfolio value, day trader, trading blocked,
transfers blocked, account blocked, in this order, and the status is
rendered by the fixed exhaustive mapping. -/
theorem account_report_fields (fmt : Num → String) (a : Account) :
    List.Forall₂ (fun lab line => ∃ rest, line = lab ++ rest)
      account_report_labels (account_report_lines fmt a) ∧
    account_report fmt a = "\n".intercalate (account_report_lines fmt a) ∧
    format_account_status AccountStatus.Onboarding = "onboarding" ∧
    format_account_status AccountStatus.SubmissionFailed = "submission failed" ∧
    format_account_status AccountStatus.Submitted = "submitted" ∧
    format_account_status AccountStatus.Updating = "updating" ∧
    format_account_status AccountStatus.ApprovalPending = "approval pending" ∧
    format_account_status AccountStatus.Active = "active" ∧
    format_account_status AccountStatus.Rejected = "rejected" := by
  refine ⟨?_, rfl, rfl, rfl, rfl, rfl, rfl, rfl, rfl⟩
  unfold account_report_labels account_report_lines
  refine List.Forall₂.cons ⟨"", by decide⟩ ?_
  refine List.Forall₂.cons (exists_suffix_append _ ⟨"                ", by decide⟩) ?_
  refine List.Forall₂.cons (exists_suffix_append _ ⟨"            ", by decide⟩) ?_
  refine List.Forall₂.cons
    (exists_suffix_append _ (exists_suffix_append _
      (exists_suffix_append _ ⟨"      ", by decide⟩))) ?_
  refine List.Forall₂.cons
    (exists_suffix_append _ (exists_suffix_append _
      (exists_suffix_append _ ⟨"              ", by decide⟩))) ?_
  refine List.Forall₂.cons
    (exists_suffix_append _ (exists_suffix_append _
      (exists_suffix_append _ ⟨" ", by decide⟩))) ?_
  refine List.Forall₂.cons
    (exists_suffix_append _ (exists_suffix_append _
      (exists_suffix_append _ ⟨"   ", by decide⟩))) ?_
  refine List.Forall₂.cons (exists_suffix_append _ ⟨"        ", by decide⟩) ?_
  refine List.Forall₂.cons (exists_suffix_append _ ⟨"   ", by decide⟩) ?_
  refine List.Forall₂.cons (exists_suffix_append _ ⟨" ", by decide⟩) ?_
  refine List.Forall₂.cons (exists_suffix_append _ ⟨"   ", by decide⟩) ?_
  exact List.Forall₂.nil

/-- C3: For every listed order, the price description is chosen by which
of limit/stop price are present: both yields stop-then-limit, only limit
yields the limit form, only stop the stop form, neither the empty string;
and every rendered row ends in exactly this price description. -/
theorem price_desc_cases (fmt : Num → String) (currency : String) :
    (∀ limit stop : Num, price_desc fmt currency (some limit) (some stop) =
      "stop @ " ++ fmt stop ++ " " ++ currency ++ ", limit @ " ++ fmt limit ++ " " ++ currency) ∧
    (∀ limit : Num, price_desc fmt currency (some limit) none =
      "limit @ " ++ fmt limit ++ " " ++ currency) ∧
    (∀ stop : Num, price_desc fmt currency none (some stop) =
      "stop @ " ++ fmt stop ++ " " ++ currency) ∧
    price_desc fmt currency none none = "" ∧
    ∀ (fmt0 : Num → String) (qw sw : Nat) (o : Order),
      ∃ pre, order_row fmt fmt0 currency qw sw o
        = pre ++ price_desc fmt currency o.limit_price o.stop_price :=
  ⟨fun _ _ => rfl, fun _ => rfl, fun _ => rfl, rfl,
   fun _ _ _ _ => ⟨_, rfl⟩⟩

/-! ### Lemmas about sorting -/

theorem symLE_trans (a b c : Order) (h1 : decide (a.symbol ≤ b.symbol) = true)
    (h2 : decide (b.symbol ≤ c.symbol) = true) :
    decide (a.symbol ≤ c.symbol) = true := by
  simp only [decide_eq_true_eq] at h1 h2 ⊢
  exact le_trans h1 h2

theorem symLE_total (a b : Order) :
    (decide (a.symbol ≤ b.symbol) || decide (b.symbol ≤ a.symbol)) = true := by
  simp only [Bool.or_eq_true, decide_eq_true_eq]
  exact le_total a.symbol b.symbol

theorem filter_stable (l : List Order) (p : Order → Bool)
    (hp : ∀ a b : Order, p a = true → p b = true →
      decide (a.symbol ≤ b.symbol) = true) :
    (sort_orders l).filter p = l.filter p := by
  have hpair : (l.filter p).Pairwise
      (fun a b : Order => decide (a.symbol ≤ b.symbol) = true) :=
    List.pairwise_of_forall_mem_list (fun a ha b hb =>
      hp a b (List.mem_filter.mp ha).2 (List.mem_filter.mp hb).2)
  have hsub : List.Sublist (l.filter p) (sort_orders l) :=
    List.sublist_mergeSort symLE_trans symLE_total hpair l.filter_sublist
  have hsub2 : List.Sublist ((l.filter p).filter p) ((sort_orders l).filter p) :=
    hsub.filter p
  have heq : (l.filter p).filter p = l.filter p :=
    List.filter_eq_self.mpr (fun a ha => (List.mem_filter.mp ha).2)
  rw [heq] at hsub2
  have hlen : ((sort_orders l).filter p).length = (l.filter p).length :=
    ((List.mergeSort_perm l _).filter p).length_eq
  exact (hsub2.eq_of_length hlen.symm).symm

theorem symLE_of_toList {a b : Order} (h : a.symbol.toList ≤ b.symbol.toList) :
    decide (a.symbol ≤ b.symbol) = true := by
  simp only [decide_eq_true_eq]
  rw [String.le_iff_toList_le]
  exact h

theorem sort_orders_sample :
    sort_orders sample_orders = [order_aapl, order_msft, order_tsla] := by
  have hs : List.Pairwise (fun a b : Order => decide (a.symbol ≤ b.symbol) = true)
      (sort_orders sample_orders) :=
    List.sorted_mergeSort symLE_trans symLE_total sample_orders
  refine List.Perm.eq_of_sorted ?_ hs ?_ ?_
  · intro a b ha hb hab hba
    rw [sort_orders, List.mem_mergeSort] at ha
    simp only [decide_eq_true_eq] at hab hba
    have hsym : a.symbol = b.symbol := le_antisymm hab hba
    fin_cases ha <;> fin_cases hb <;> first | rfl | exact absurd hsym (by decide)
  · refine List.Pairwise.cons (fun x hx => ?_)
      (List.Pairwise.cons (fun x hx => ?_)
        (List.Pairwise.cons (fun x hx => (List.not_mem_nil x hx).elim)
          List.Pairwise.nil))
    · rcases List.mem_cons.mp hx with h | h
      · subst h; exact symLE_of_toList (by decide)
      · rw [List.mem_singleton.mp h]; exact symLE_of_toList (by decide)
    · rw [List.mem_singleton.mp hx]; exact symLE_of_toList (by decide)
  · exact (List.mergeSort_perm sample_orders _).trans
      ((List.Perm.swap order_aapl order_tsla [order_msft]).trans
        (List.Perm.cons order_aapl (List.Perm.swap order_msft order_tsla [])))

/-- C4: The Order List Composer sorts orders by symbol ascending before
rendering, the sort is a stable permutation of its input (orders with
equal symbols keep their relative order), and on symbols TSLA, AAPL,
MSFT the rows come out in order AAPL, MSFT, TSLA. -/
theorem sort_orders_spec (l : List Order) :
    List.Pairwise (fun a b : Order => a.symbol ≤ b.symbol) (sort_orders l) ∧
    (sort_orders l).Perm l ∧
    (∀ s : String, (sort_orders l).filter (fun o => o.symbol == s)
      = l.filter (fun o => o.symbol == s)) ∧
    (sort_orders sample_orders).map (fun o => o.symbol) = ["AAPL", "MSFT", "TSLA"] := by
  refine ⟨?_, List.mergeSort_perm l _, ?_, by rw [sort_orders_sample]; rfl⟩
  · exact (List.sorted_mergeSort symLE_trans symLE_total l).imp of_decide_eq_true
  · intro s
    refine filter_stable l _ (fun a b ha hb => ?_)
    simp only [beq_iff_eq] at ha hb
    simp [ha, hb]

/-! ### Lemmas about column widths -/

theorem foldl_max_shift {T : Type} (f : T → Nat) :
    ∀ (l : List T) (acc : Nat),
      l.foldl (fun m i => max m (f i)) acc
        = max acc (l.foldl (fun m i => max m (f i)) 0)
  | [], acc => by simp
  | a :: l, acc => by
    simp only [List.foldl_cons]
    rw [foldl_max_shift f l (max acc (f a)), foldl_max_shift f l (max 0 (f a))]
    omega

theorem max_width_cons {T : Type} (a : T) (l : List T) (f : T → Nat) :
    max_width (a :: l) f = max (f a) (max_width l f) := by
  unfold max_width
  simp only [List.foldl_cons]
  rw [foldl_max_shift]
  omega

theorem le_max_width {T : Type} {l : List T} {x : T} (f : T → Nat) (hx : x ∈ l) :
    f x ≤ max_width l f := by
  induction l with
  | nil => cases hx
  | cons a l ih =>
    rw [max_width_cons]
    rcases List.mem_cons.mp hx with h | h
    · subst h; omega
    · have := ih h; omega

theorem max_width_attained {T : Type} {l : List T} (f : T → Nat) (hl : l ≠ []) :
    ∃ x ∈ l, max_width l f = f x := by
  induction l with
  | nil => exact absurd rfl hl
  | cons a l ih =>
    rw [max_width_cons]
    cases l with
    | nil =>
      refine ⟨a, List.mem_cons_self a [], ?_⟩
      show max (f a) (max_width [] f) = f a
      simp [max_width]
    | cons b t =>
      obtain ⟨x, hx, hmax⟩ := ih (by simp)
      by_cases h : max_width (b :: t) f ≤ f a
      · exact ⟨a, List.mem_cons_self a _, by omega⟩
      · exact ⟨x, List.mem_cons_of_mem a hx, by omega⟩

theorem pad_left_length {s : String} {w : Nat} (h : s.length ≤ w) :
    (pad_left s w).length = w := by
  simp only [pad_left, String.length_append, String.length_mk, List.length_replicate]
  omega

/-- C5: The quantity-column width is the maximum length of the
zero-decimal-formatted quantities over all rows (0 on the empty list),
the symbol-column width is the maximum symbol length, both measured
over the entire (sorted) result set, and every row's quantity field is
right-aligned (left-padded with spaces) to exactly the quantity width. -/
theorem order_list_column_widths (fmt0 : Num → String) (l : List Order) :
    (l = [] → qty_max fmt0 (sort_orders l) = 0 ∧ sym_max (sort_orders l) = 0) ∧
    (∀ o ∈ l,
      (format_quantity fmt0 o.quantity).length ≤ qty_max fmt0 (sort_orders l) ∧
      o.symbol.length ≤ sym_max (sort_orders l)) ∧
    (l ≠ [] →
      (∃ o ∈ l, qty_max fmt0 (sort_orders l) = (format_quantity fmt0 o.quantity).length) ∧
      (∃ o ∈ l, sym_max (sort_orders l) = o.symbol.length)) ∧
    (∀ o ∈ l,
      pad_left (format_quantity fmt0 o.quantity) (qty_max fmt0 (sort_orders l))
        = String.mk (List.replicate
            (qty_max fmt0 (sort_orders l) - (format_quantity fmt0 o.quantity).length) ' ')
          ++ format_quantity fmt0 o.quantity ∧
      (pad_left (format_quantity fmt0 o.quantity) (qty_max fmt0 (sort_orders l))).length
        = qty_max fmt0 (sort_orders l)) := by
  have hmem : ∀ o : Order, o ∈ l → o ∈ sort_orders l :=
    fun o h => List.mem_mergeSort.mpr h
  refine ⟨?_, ?_, ?_, ?_⟩
  · rintro rfl
    constructor <;> simp [sort_orders, qty_max, sym_max, max_width]
  · intro o ho
    exact ⟨le_max_width (fun p : Order => (format_quantity fmt0 p.quantity).length)
        (hmem o ho),
      le_max_width (fun p : Order => p.symbol.length) (hmem o ho)⟩
  · intro hl
    have hne : sort_orders l ≠ [] := by
      intro hnil
      have hlen : (sort_orders l).length = l.length := List.length_mergeSort l
      rw [hnil] at hlen
      exact hl (List.eq_nil_of_length_eq_zero hlen.symm)
    obtain ⟨x, hx, hmax⟩ := max_width_attained
      (fun p : Order => (format_quantity fmt0 p.quantity).length) hne
    obtain ⟨y, hy, hmay⟩ := max_width_attained (fun p : Order => p.symbol.length) hne
    exact ⟨⟨x, List.mem_mergeSort.mp hx, hmax⟩, ⟨y, List.mem_mergeSort.mp hy, hmay⟩⟩
  · intro o ho
    exact ⟨rfl, pad_left_length
      (le_max_width (fun p : Order => (format_quantity fmt0 p.quantity).length)
        (hmem o ho))⟩

/-- Witness for C5: on the sample orders with quantities 7, 1500, 23 the
quantity column width is 4, and MSFT's 2-character quantity fits it. -/
theorem order_list_column_widths_witness :
    qty_max sample_fmt (sort_orders sample_orders) = 4 ∧
    (format_quantity sample_fmt order_msft.quantity).length
      ≤ qty_max sample_fmt (sort_orders sample_orders) ∧
    (pad_left (format_quantity sample_fmt order_msft.quantity)
        (qty_max sample_fmt (sort_orders sample_orders))).length
      = qty_max sample_fmt (sort_orders sample_orders) := by
  refine ⟨by rw [sort_orders_sample]; decide, ?_, ?_⟩
  · exact (((order_list_column_widths sample_fmt sample_orders).2.1
      order_msft (by decide)).1 : _)
  · exact (((order_list_column_widths sample_fmt sample_orders).2.2.2
      order_msft (by decide)).2 : _)

/-! ### Lemmas about the assertion-guarded rendering -/

theorem render_rows_none_of_mem (fmt fmt0 : Num → String) (currency : String)
    (qw sw : Nat) {l : List Order} {o : Order} (ho : o ∈ l)
    (hnone : order_row_checked fmt fmt0 currency qw sw o = none) :
    render_rows fmt fmt0 currency qw sw l = none := by
  induction l with
  | nil => cases ho
  | cons a t ih =>
    rw [render_rows]
    rcases List.mem_cons.mp ho with h | h
    · subst h
      cases hr : render_rows fmt fmt0 currency qw sw t <;> simp [hnone, hr]
    · cases hc : order_row_checked fmt fmt0 currency qw sw a <;> simp [hc, ih h]

/-- C6: An order whose populated price fields do not match its declared
type (equivalently, whose type differs from the one §4.1 would infer
from its prices) trips the defensive assertion: its row is `none` and
any listing containing it renders fatally (`none`) rather than silently. -/
theorem order_mismatch_never_rendered (fmt fmt0 : Num → String) (currency : String)
    (qw sw : Nat) (o : Order) (h : type_matches o = false) :
    (type_matches o = true ↔ o.type_ = infer_order_type o.limit_price o.stop_price) ∧
    order_row_checked fmt fmt0 currency qw sw o = none ∧
    ∀ (a : Account) (l : List Order), o ∈ l →
      render_order_list fmt fmt0 a l = none := by
  refine ⟨?_, ?_, ?_⟩
  · unfold type_matches infer_order_type
    cases o.limit_price <;> cases o.stop_price <;> simp
  · simp [order_row_checked, h]
  · intro a l hol
    show render_rows fmt fmt0 a.currency _ _ (sort_orders l) = none
    exact render_rows_none_of_mem fmt fmt0 a.currency _ _
      (List.mem_mergeSort.mpr hol) (by simp [order_row_checked, h])

/-- Witness for C6: a Market order carrying a limit price is rejected by
the assertion and a listing containing it renders fatally. -/
theorem order_mismatch_never_rendered_witness :
    order_row_checked sample_fmt sample_fmt "USD" 4 4 order_bad = none ∧
    render_order_list sample_fmt sample_fmt sample_account [order_bad] = none :=
  ⟨(order_mismatch_never_rendered sample_fmt sample_fmt "USD" 4 4 order_bad
      (by decide)).2.1,
   (order_mismatch_never_rendered sample_fmt sample_fmt "USD" 4 4 order_bad
      (by decide)).2.2 sample_account [order_bad] (by decide)⟩

/-- C2: The Order List operation combines the get-account result with the
list-orders result taken at page size 500; it renders only when both
succeeded, and a failure of either aborts the whole operation with that
error and emits no rows.  The result depends on the orders request only
through its value at page size 500. -/
theorem order_list_join_semantics (fmt fmt0 : Num → String)
    (get_account : Except String Account)
    (get_orders : OrdersReq → Except String (List Order)) :
    (∀ e, get_account = Except.error e →
      order_list fmt fmt0 get_account get_orders = Except.error e) ∧
    (∀ a e, get_account = Except.ok a →
      get_orders { limit := 500 } = Except.error e →
      order_list fmt fmt0 get_account get_orders = Except.error e) ∧
    (∀ a os, get_account = Except.ok a →
      get_orders { limit := 500 } = Except.ok os →
      order_list fmt fmt0 get_account get_orders
        = Except.ok (render_order_list fmt fmt0 a os)) ∧
    (∀ get_orders2 : OrdersReq → Except String (List Order),
      get_orders2 { limit := 500 } = get_orders { limit := 500 } →
      order_list fmt fmt0 get_account get_orders2
        = order_list fmt fmt0 get_account get_orders) := by
  refine ⟨?_, ?_, ?_, ?_⟩
  · rintro e rfl; rfl
  · rintro a e rfl h
    unfold order_list
    rw [h]
  · rintro a os rfl h
    unfold order_list
    rw [h]
  · intro g2 h
    unfold order_list
    rw [h]

/-- Witness for C2: with a succeeding account call and a failing orders
call, the listing aborts with the orders error and emits no rows. -/
theorem order_list_join_semantics_witness :
    order_list sample_fmt sample_fmt (Except.ok sample_account)
      (fun _ => Except.error "timeout") = Except.error "timeout" :=
  (order_list_join_semantics sample_fmt sample_fmt (Except.ok sample_account)
    (fun _ => Except.error "timeout")).2.1 sample_account "timeout" rfl rfl

end Apcacli
